import Mathlib

/-!
# ftail: a shallow embedding of `ftail.go`

`FTailer` follows one file: `NewFTailer` registers a watch on the path, opens
the file and seeks to its end; `Tail` loops over the watcher's channels, scans
the open file line by line on every event that has the write bit and
re-acquires watcher and file (or exits) on remove, rename and chmod.

The embedding is explicit state passing.  Everything outside the process (the
file system, the results of the collaborators' calls) is a `World` value that
is handed to every step; everything the process does to the outside is recorded
in a trace of `Act`s.  `os.Exit` is an outcome of its own, which stops whatever
would have followed.
-/

namespace FTail

/-! ## Bytes and strings -/

/-- A byte of a file or of a Go string. -/
abbrev Byte := Nat

/-- The line terminator, `'\n'`. -/
def nl : Byte := 10

/-- The carriage return, `'\r'`. -/
def cr : Byte := 13

/-- The bytes of an ASCII literal, to write examples with. -/
def str (s : String) : List Byte := s.toList.map Char.toNat

/-! ## Error codes (`const ( ErrWatcherInit = 1 << iota ... )`) -/

def ErrWatcherInit : Nat := 1 <<< 0
def ErrWatcherAdd : Nat := 1 <<< 1
def ErrWatcherClosed : Nat := 1 <<< 2
def ErrWatcherErr : Nat := 1 <<< 3
def ErrFileOpen : Nat := 1 <<< 4
def ErrFileRead : Nat := 1 <<< 5
def ErrFileSeek : Nat := 1 <<< 6

/-! ## The line scanner (`bufio.Scanner` with the default split function)

`Tail` reads through `bufio.NewScanner(ft.file)`.  The scanner is Go's
standard library; what follows is its documented behaviour: `ScanLines` and
`dropCR` as they are written there, and the `Scan` loop reduced to what its
buffer can hold, `MaxScanTokenSize` bytes. -/

/-- The value of `bufio.MaxScanTokenSize`, the largest buffer `Scan` allocates. -/
def MaxScanTokenSize : Nat := 64 * 1024

/-- The function `bytes.IndexByte`: the index of the first `c` in `data`, `none` for Go's -1. -/
def indexByte : List Byte → Byte → Option Nat
  | [], _ => none
  | b :: bs, c => if b = c then some 0 else (indexByte bs c).map (· + 1)

/-- The function `dropCR` of `bufio`: drops one terminal `'\r'` from the data. -/
def dropCR (data : List Byte) : List Byte :=
  if data.getLast? = some cr then data.dropLast else data

/-- The split function `bufio.ScanLines`: the bytes to advance by and the token, `none` for a
nil token (more data is requested, or there is none left). -/
def ScanLines (data : List Byte) (atEOF : Bool) : Nat × Option (List Byte) :=
  if atEOF && data.isEmpty then (0, none)
  else
    match indexByte data nl with
    | some i => (i + 1, some (dropCR (data.take i)))
    | none => if atEOF then (data.length, some (dropCR data)) else (0, none)

/-- What ended a run of `scanner.Scan()` calls, as `scanner.Err()` tells it. -/
inductive ScanErr where
  /-- The error `bufio.ErrTooLong`: a token did not fit into the buffer. -/
  | tooLong
  /-- An error of the underlying `Read` other than `io.EOF`. -/
  | read
  deriving DecidableEq

/-- The loop `for scanner.Scan() { ... scanner.Text() ... }` followed by `scanner.Err()`, run
on the bytes `data` that `Read` delivers before it ends; `readFails` says that it ends with an
error rather than `io.EOF`.  The buffer holds at most `MaxScanTokenSize` bytes from the start
of the current token; the split function sees `atEOF` once the reader has ended, which needs
the rest of the data to fit into the buffer with room to spare.  A full buffer without a token
is `ErrTooLong`.  Every token takes at least one byte, so `data.length + 1` rounds of fuel
exhaust any input. -/
def scanLoop : Nat → List Byte → Bool → List (List Byte) × Option ScanErr
  | 0, _, _ => ([], none)
  | fuel + 1, data, readFails =>
    let full : Bool := decide (MaxScanTokenSize ≤ data.length)
    match ScanLines (data.take MaxScanTokenSize) (!full) with
    | (advance, some token) =>
      let rest := scanLoop fuel (data.drop advance) readFails
      (token :: rest.1, rest.2)
    | (_, none) =>
      if full then ([], some ScanErr.tooLong)
      else ([], if readFails then some ScanErr.read else none)

/-- All tokens of a scanner over a reader that delivers `data`, and its final error. -/
def scanAll (data : List Byte) (readFails : Bool) : List (List Byte) × Option ScanErr :=
  scanLoop (data.length + 1) data readFails

/-! ## The outside world -/

/-- The state of everything outside the process at the moment a step runs: which file is at
which path, what every file contains, and how the collaborators' calls turn out. -/
structure World where
  /-- The file found at a path, `none` when no file exists there. -/
  lookup : String → Option Nat
  /-- The bytes of each file. -/
  content : Nat → List Byte
  /-- Whether `fsnotify.NewWatcher()` succeeds. -/
  newWatcherOk : Bool
  /-- Whether `watcher.Add` succeeds on a path at which a file exists. -/
  addOk : Bool
  /-- Whether `os.Open` succeeds on a path at which a file exists. -/
  openOk : Bool
  /-- Whether `Seek(0, io.SeekEnd)` succeeds on an open file. -/
  seekOk : Bool
  /-- When `some k`: `Read` reports an error other than `io.EOF` once it has delivered `k`
  bytes (or all there are, if fewer). -/
  readErr : Option Nat

/-- A value of `*os.File`: the file the handle is open on and its read offset. -/
structure File where
  ino : Nat
  pos : Nat
  deriving DecidableEq

/-- A value of `*fsnotify.Watcher`, with the file its one watch is registered on. -/
structure Watcher where
  ino : Nat
  deriving DecidableEq

/-- The struct `FTailer`; `none` is Go's `nil` pointer. -/
structure FTailer where
  Name : String
  file : Option File
  watcher : Option Watcher
  follow : Bool
  deriving DecidableEq

/-! ## Events of the watcher (`fsnotify.Op`, `fsnotify.Event`) -/

/-- The bit set `fsnotify.Op`. -/
abbrev Op := Nat

def Create : Op := 1 <<< 0
def Write : Op := 1 <<< 1
def Remove : Op := 1 <<< 2
def Rename : Op := 1 <<< 3
def Chmod : Op := 1 <<< 4

/-- The struct `fsnotify.Event`. -/
structure Event where
  Name : String
  Op : Op
  deriving DecidableEq

/-- The method `Event.Has`: whether the event has the given operation. -/
def Event.Has (e : Event) (op : FTail.Op) : Bool := e.Op &&& op == op

/-- The condition of the second `if` of `Tail`: a remove, rename or chmod bit. -/
def Event.identityLoss (e : Event) : Bool := e.Has Remove || e.Has Rename || e.Has Chmod

/-! ## Effects and outcomes -/

/-- What the process does to the outside, in the order it does it. -/
inductive Act where
  /-- The call `ft.watcher.Close()`. -/
  | closeWatcher (wt : Watcher)
  /-- The call `fsnotify.NewWatcher()`. -/
  | newWatcher
  /-- The call `watcher.Add(ft.Name)`. -/
  | addWatch (name : String)
  /-- The call `ft.file.Close()`. -/
  | closeFile (f : File)
  /-- The call `os.Open(ft.Name)`. -/
  | openFile (name : String)
  /-- The call `ft.file.Seek(0, io.SeekEnd)`. -/
  | seekEnd
  /-- The send `c <- scanner.Text()`. -/
  | send (line : List Byte)
  /-- The call `close(c)`. -/
  | closeChan
  deriving DecidableEq

/-- How a piece of code ends: it falls through with a value, or it calls `os.Exit`. -/
inductive Outcome (α : Type) where
  | ok (a : α)
  | exit (code : Nat)
  deriving DecidableEq

/-- A run of a piece of code: what it did and how it ended. -/
structure Run (α : Type) where
  trace : List Act
  out : Outcome α
  deriving DecidableEq

/-- Sequencing: what follows runs only if the first part did not exit. -/
def Run.andThen {α β : Type} (r : Run α) (k : α → Run β) : Run β :=
  match r.out with
  | .ok a => ⟨r.trace ++ (k a).trace, (k a).out⟩
  | .exit code => ⟨r.trace, .exit code⟩

/-- The strings sent to the output channel in a trace, in order. -/
def sent : List Act → List (List Byte)
  | [] => []
  | .send line :: rest => line :: sent rest
  | _ :: rest => sent rest

/-! ## `NewFTailer` and its helpers -/

/-- The method `initWatcher`: closes the old watcher if there is one, creates a new one and
adds the path; exits with `ErrWatcherInit` or `ErrWatcherAdd` when a call fails.  A path at
which no file exists cannot be watched. -/
def initWatcher (w : World) (ft : FTailer) : Run FTailer :=
  let closed : Run FTailer :=
    match ft.watcher with
    | some wt => ⟨[.closeWatcher wt], .ok { ft with watcher := none }⟩
    | none => ⟨[], .ok ft⟩
  closed.andThen fun ft =>
    if !w.newWatcherOk then ⟨[.newWatcher], .exit ErrWatcherInit⟩
    else
      match (if w.addOk then w.lookup ft.Name else none) with
      | none => ⟨[.newWatcher, .addWatch ft.Name], .exit ErrWatcherAdd⟩
      | some ino => ⟨[.newWatcher, .addWatch ft.Name], .ok { ft with watcher := some ⟨ino⟩ }⟩

/-- The method `initFile`: closes the old handle if there is one and opens the path, at
offset 0; when `os.Open` fails it exits with the code written there, `ErrWatcherInit`. -/
def initFile (w : World) (ft : FTailer) : Run FTailer :=
  let closed : Run FTailer :=
    match ft.file with
    | some f => ⟨[.closeFile f], .ok { ft with file := none }⟩
    | none => ⟨[], .ok ft⟩
  closed.andThen fun ft =>
    match (if w.openOk then w.lookup ft.Name else none) with
    | none => ⟨[.openFile ft.Name], .exit ErrWatcherInit⟩
    | some ino => ⟨[.openFile ft.Name], .ok { ft with file := some ⟨ino, 0⟩ }⟩

/-- The method `seekEnd`: moves the read offset to the end of the file as it is now and
returns it; exits with `ErrFileSeek` when `Seek` fails, as it does on a nil handle. -/
def seekEnd (w : World) (ft : FTailer) : Run (FTailer × Nat) :=
  match ft.file with
  | none => ⟨[.seekEnd], .exit ErrFileSeek⟩
  | some f =>
    if w.seekOk then
      let pos := (w.content f.ino).length
      ⟨[.seekEnd], .ok ({ ft with file := some { f with pos := pos } }, pos)⟩
    else ⟨[.seekEnd], .exit ErrFileSeek⟩

/-- The function `NewFTailer`. -/
def NewFTailer (w : World) (name : String) (follow : Bool) : Run FTailer :=
  let ft : FTailer := { Name := name, file := none, watcher := none, follow := follow }
  (initWatcher w ft).andThen fun ft =>
  (initFile w ft).andThen fun ft =>
  (seekEnd w ft).andThen fun r =>
  ⟨[], .ok r.1⟩

/-! ## `Tail` -/

/-- What the scanner of a write event reads: the bytes from the read offset to the end of the
file, cut where `Read` fails if it does.  A nil handle fails at once. -/
def scanInput (w : World) (ft : FTailer) : List Byte × Bool :=
  match ft.file with
  | none => ([], true)
  | some f =>
    let unread := (w.content f.ino).drop f.pos
    match w.readErr with
    | none => (unread, false)
    | some k => (unread.take k, true)

/-- The tokens and the final error of the scanner of a write event. -/
def scanUnread (w : World) (ft : FTailer) : List (List Byte) × Option ScanErr :=
  scanAll (scanInput w ft).1 (scanInput w ft).2

/-- The body of `if event.Has(fsnotify.Write)`: every token of the scanner is sent; then an
error of the scanner exits with `ErrFileRead`, and otherwise the offset is put at the end. -/
def writeScan (w : World) (ft : FTailer) : Run FTailer :=
  let sends : Run FTailer := ⟨(scanUnread w ft).1.map Act.send, .ok ft⟩
  sends.andThen fun ft =>
    match (scanUnread w ft).2 with
    | some _ => ⟨[], .exit ErrFileRead⟩
    | none => (seekEnd w ft).andThen fun r => ⟨[], .ok r.1⟩

/-- The body of `if event.Has(fsnotify.Remove) || ...`: re-acquisition when following,
`os.Exit(0)` otherwise. -/
def identityLost (w : World) (ft : FTailer) : Run FTailer :=
  if ft.follow then
    (initWatcher w ft).andThen fun ft =>
    (initFile w ft).andThen fun ft =>
    (seekEnd w ft).andThen fun r =>
    ⟨[], .ok r.1⟩
  else ⟨[], .exit 0⟩

/-- The handling of one event received from `ft.watcher.Events`: the two `if`s in turn. -/
def handleEvent (w : World) (ft : FTailer) (event : Event) : Run FTailer :=
  (if event.Has Write then writeScan w ft else ⟨[], .ok ft⟩).andThen fun ft =>
  if event.Has Remove || event.Has Rename || event.Has Chmod then identityLost w ft
  else ⟨[], .ok ft⟩

/-- What one `select` of `Tail` receives. -/
inductive Recv where
  /-- An event from `ft.watcher.Events`. -/
  | event (ev : Event)
  /-- The channel `ft.watcher.Events` is closed. -/
  | eventsClosed
  /-- An error from `ft.watcher.Errors`. -/
  | error
  /-- The channel `ft.watcher.Errors` is closed. -/
  | errorsClosed
  deriving DecidableEq

/-- How a run of `Tail` stands once its inputs are used up. -/
inductive Stop where
  /-- The process ended in `os.Exit(code)`. -/
  | exit (code : Nat)
  /-- The function returned. -/
  | returned
  /-- The loop waits in `select` for the next input. -/
  | waiting (ft : FTailer)
  deriving DecidableEq

/-- The result of `Tail`: what it did and how it stands. -/
structure TailRun where
  trace : List Act
  stop : Stop
  deriving DecidableEq

/-- The loop `for { select { ... } }` of `Tail`, fed with what each `select` receives and the
world at that moment.  No branch leaves the loop other than through `os.Exit`. -/
def tailLoop : FTailer → List (World × Recv) → TailRun
  | ft, [] => ⟨[], .waiting ft⟩
  | ft, (w, .event ev) :: rest =>
    match handleEvent w ft ev with
    | ⟨tr, .ok ft'⟩ => ⟨tr ++ (tailLoop ft' rest).trace, (tailLoop ft' rest).stop⟩
    | ⟨tr, .exit code⟩ => ⟨tr, .exit code⟩
  | _, (_, .eventsClosed) :: _ => ⟨[], .exit ErrWatcherClosed⟩
  | _, (_, .error) :: _ => ⟨[], .exit ErrWatcherErr⟩
  | _, (_, .errorsClosed) :: _ => ⟨[], .exit ErrWatcherClosed⟩

/-- The deferred call `defer close(c)`: Go runs deferred calls when the function returns, and
does not run them when the process ends in `os.Exit`. -/
def deferred : Stop → List Act
  | .returned => [.closeChan]
  | .exit _ => []
  | .waiting _ => []

/-- The method `Tail`. -/
def Tail (ft : FTailer) (inputs : List (World × Recv)) : TailRun :=
  let r := tailLoop ft inputs
  ⟨r.trace ++ deferred r.stop, r.stop⟩

/-! ## Scenarios: lines, appends -/

/-- The bytes of a sequence of complete lines: each line followed by the terminator. -/
def unlines : List (List Byte) → List Byte
  | [] => []
  | l :: ls => l ++ nl :: unlines ls

/-- The world after `chunk` is appended to the file `ino`. -/
def World.append (w : World) (ino : Nat) (chunk : List Byte) : World :=
  { w with content := fun i => if i = ino then w.content i ++ chunk else w.content i }

/-- A sequence of appends to the file `ino`, each followed by one event that `Tail` receives in
the world as it is after that append. -/
def appends (w : World) (ino : Nat) : List (List Byte × Event) → List (World × Recv)
  | [] => []
  | (chunk, ev) :: rest => (w.append ino chunk, .event ev) :: appends (w.append ino chunk) ino rest

/-- A line that the scanner can hold: no terminator inside, shorter than the buffer. -/
def isLine (l : List Byte) : Prop := nl ∉ l ∧ l.length < MaxScanTokenSize

instance (l : List Byte) : Decidable (isLine l) := by
  unfold isLine
  exact inferInstance

/-- The final error of a scanner whose reader ended: the reader's error, if it had one. -/
def readerErr (readFails : Bool) : Option ScanErr := if readFails then some ScanErr.read else none

/-- The token of the unterminated rest of the input, if there is a rest. -/
def lastToken (t : List Byte) : List (List Byte) := if t = [] then [] else [dropCR t]

/-- The lines of a sequence of appended chunks, in file order. -/
def allLines : List (List (List Byte) × Event) → List (List Byte)
  | [] => []
  | s :: rest => s.1 ++ allLines rest

/-- The inputs of `Tail` when each chunk, given by its lines, is appended and followed by its
event. -/
def lineAppends (w : World) (ino : Nat) (steps : List (List (List Byte) × Event)) :
    List (World × Recv) :=
  appends w ino (steps.map fun s => (unlines s.1, s.2))

/-- A world in which every call succeeds and the file `0`, found at every path, holds
`content`. -/
def quietWorld (content : List Byte) : World :=
  { lookup := fun _ => some 0, content := fun _ => content, newWatcherOk := true,
    addOk := true, openOk := true, seekOk := true, readErr := none }

/-- A Tailer on the file `0` with read offset `pos`. -/
def tailerAt (pos : Nat) (follow : Bool) : FTailer :=
  { Name := "f", file := some ⟨0, pos⟩, watcher := some ⟨0⟩, follow := follow }

/-- A world in which no file exists at any path; every call that does not need the file
succeeds. -/
def emptyWorld : World :=
  { lookup := fun _ => none, content := fun _ => [], newWatcherOk := true,
    addOk := true, openOk := true, seekOk := true, readErr := none }

/-- A world after a rotation: the old file `0` still holds what the open handle has not read,
and the path leads to the new file `1`, which holds `fresh`. -/
def rotatedWorld (fresh : List Byte) : World :=
  { lookup := fun _ => some 1,
    content := fun i => if i = 0 then str "old\nunread" else fresh,
    newWatcherOk := true, addOk := true, openOk := true, seekOk := true, readErr := none }

/-- The actions of `Tail` on an event with a remove, rename or chmod bit when it follows and
no call fails: the scan first if the event has the write bit (the tokens sent, the seek to
the end), then the re-acquisition: the watcher closed, a new one created and the path added,
the handle closed (at the offset the scan left it), the path opened, the seek to the end. -/
def rotationTrace (w : World) (ft : FTailer) (ev : Event) : List Act :=
  (if ev.Has Write then (scanUnread w ft).1.map Act.send ++ [Act.seekEnd] else []) ++
  (ft.watcher.toList.map Act.closeWatcher ++ [Act.newWatcher, Act.addWatch ft.Name]) ++
  (ft.file.toList.map fun f =>
    Act.closeFile (if ev.Has Write then ⟨f.ino, (w.content f.ino).length⟩ else f)) ++
  [Act.openFile ft.Name, Act.seekEnd]

/-! ## Lemmas

### The scanner -/

theorem indexByte_append_nl (l rest : List Byte) (h : nl ∉ l) :
    indexByte (l ++ nl :: rest) nl = some l.length := by
  induction l with
  | nil => simp [indexByte]
  | cons b bs ih =>
    have hb : b ≠ nl := fun e => h (by simp [e])
    have hbs : nl ∉ bs := fun e => h (by simp [e])
    simp [indexByte, hb, ih hbs]

theorem indexByte_none (l : List Byte) (h : nl ∉ l) : indexByte l nl = none := by
  induction l with
  | nil => simp [indexByte]
  | cons b bs ih =>
    have hb : b ≠ nl := fun e => h (by simp [e])
    have hbs : nl ∉ bs := fun e => h (by simp [e])
    simp [indexByte, hb, ih hbs]

theorem take_line (l rest : List Byte) (n : Nat) (h : l.length < n) :
    (l ++ nl :: rest).take n = l ++ nl :: rest.take (n - l.length - 1) := by
  rw [List.take_append_eq_append_take, List.take_of_length_le (Nat.le_of_lt h)]
  obtain ⟨k, hk⟩ : ∃ k, n - l.length = k + 1 := ⟨n - l.length - 1, by omega⟩
  rw [hk, List.take_succ_cons]
  simp

theorem ScanLines_line (l rest : List Byte) (atEOF : Bool) (h : nl ∉ l) :
    ScanLines (l ++ nl :: rest) atEOF = (l.length + 1, some (dropCR l)) := by
  simp [ScanLines, indexByte_append_nl l rest h]

theorem scanLoop_line (fuel : Nat) (l rest : List Byte) (rf : Bool) (h : nl ∉ l)
    (hlen : l.length < MaxScanTokenSize) :
    scanLoop (fuel + 1) (l ++ nl :: rest) rf
      = (dropCR l :: (scanLoop fuel rest rf).1, (scanLoop fuel rest rf).2) := by
  simp only [scanLoop]
  rw [take_line l rest _ hlen, ScanLines_line l _ _ h]
  simp

theorem scanLoop_nil (fuel : Nat) (rf : Bool) :
    scanLoop (fuel + 1) [] rf = ([], readerErr rf) := by
  simp [scanLoop, ScanLines, MaxScanTokenSize, readerErr]

theorem ScanLines_last (t : List Byte) (hne : t ≠ []) (h : nl ∉ t) :
    ScanLines t true = (t.length, some (dropCR t)) := by
  simp [ScanLines, indexByte_none t h, hne]

theorem scanLoop_last (fuel : Nat) (t : List Byte) (rf : Bool) (hne : t ≠ []) (h : nl ∉ t)
    (hlen : t.length < MaxScanTokenSize) :
    scanLoop (fuel + 2) t rf = ([dropCR t], readerErr rf) := by
  have hfull : decide (MaxScanTokenSize ≤ t.length) = false := by simp; omega
  have step : scanLoop (fuel + 2) t rf
      = (dropCR t :: (scanLoop (fuel + 1) [] rf).1, (scanLoop (fuel + 1) [] rf).2) := by
    rw [scanLoop]
    simp only [hfull, List.take_of_length_le (Nat.le_of_lt hlen), Bool.not_false,
      ScanLines_last t hne h, List.drop_length]
  rw [step, scanLoop_nil]

theorem unlines_append (xs ys : List (List Byte)) : unlines (xs ++ ys) = unlines xs ++ unlines ys := by
  induction xs with
  | nil => rfl
  | cons x xs ih => simp [unlines, ih]

theorem scanLoop_lines (ls : List (List Byte)) (t : List Byte) (rf : Bool)
    (hls : ∀ l ∈ ls, isLine l) (ht : isLine t) :
    ∀ fuel, (unlines ls ++ t).length < fuel →
      scanLoop fuel (unlines ls ++ t) rf = (ls.map dropCR ++ lastToken t, readerErr rf) := by
  induction ls with
  | nil =>
    intro fuel hfuel
    simp only [unlines, List.nil_append, List.map_nil] at hfuel ⊢
    by_cases hne : t = []
    · subst hne
      obtain ⟨k, rfl⟩ : ∃ k, fuel = k + 1 := ⟨fuel - 1, by simp at hfuel; omega⟩
      simp [scanLoop_nil, lastToken]
    · have hpos : 0 < t.length := List.length_pos.mpr hne
      obtain ⟨k, rfl⟩ : ∃ k, fuel = k + 2 := ⟨fuel - 2, by omega⟩
      simp [scanLoop_last k t rf hne ht.1 ht.2, lastToken, hne]
  | cons l ls ih =>
    intro fuel hfuel
    have hl : isLine l := hls l (by simp)
    have hrest : ∀ x ∈ ls, isLine x := fun x hx => hls x (by simp [hx])
    simp only [unlines, List.append_assoc, List.cons_append, List.length_append,
      List.length_cons] at hfuel ⊢
    obtain ⟨k, rfl⟩ : ∃ k, fuel = k + 1 := ⟨fuel - 1, by omega⟩
    rw [scanLoop_line k l _ rf hl.1 hl.2, ih hrest k (by simp only [List.length_append]; omega)]
    simp

theorem scanAll_lines (ls : List (List Byte)) (t : List Byte) (rf : Bool)
    (hls : ∀ l ∈ ls, isLine l) (ht : isLine t) :
    scanAll (unlines ls ++ t) rf = (ls.map dropCR ++ lastToken t, readerErr rf) :=
  scanLoop_lines ls t rf hls ht _ (Nat.lt_succ_self _)

theorem isLine_nil : isLine [] := ⟨by simp, by simp [MaxScanTokenSize]⟩

theorem scanAll_unlines (ls : List (List Byte)) (rf : Bool) (hls : ∀ l ∈ ls, isLine l) :
    scanAll (unlines ls) rf = (ls.map dropCR, readerErr rf) := by
  have h := scanAll_lines ls [] rf hls isLine_nil
  simpa [lastToken] using h

/-! The fuel of `scanAll` is enough: more of it changes nothing. -/

theorem ScanLines_advance (data : List Byte) (atEOF : Bool) (adv : Nat) (tok : List Byte)
    (h : ScanLines data atEOF = (adv, some tok)) : 1 ≤ adv := by
  unfold ScanLines at h
  split at h
  · simp at h
  · rename_i hne
    split at h
    · simp at h; omega
    · split at h
      · rename_i hEOF
        simp only [Prod.mk.injEq] at h
        cases data with
        | nil => simp [hEOF] at hne
        | cons b bs => simp at h; omega
      · simp at h

theorem scanLoop_fuel (rf : Bool) :
    ∀ (fuel1 fuel2 : Nat) (data : List Byte), data.length < fuel1 → data.length < fuel2 →
      scanLoop fuel1 data rf = scanLoop fuel2 data rf := by
  intro fuel1
  induction fuel1 with
  | zero => intro fuel2 data h; omega
  | succ k ih =>
    intro fuel2 data h1 h2
    obtain ⟨m, rfl⟩ : ∃ m, fuel2 = m + 1 := ⟨fuel2 - 1, by omega⟩
    simp only [scanLoop]
    cases hsl : ScanLines (data.take MaxScanTokenSize)
        (!decide (MaxScanTokenSize ≤ data.length)) with
    | mk adv tok =>
      cases tok with
      | none => rfl
      | some t =>
        have hadv := ScanLines_advance _ _ _ _ hsl
        have hlen : (data.drop adv).length < data.length ∨ data = [] := by
          cases data with
          | nil => exact Or.inr rfl
          | cons b bs => left; simp only [List.length_drop, List.length_cons]; omega
        rcases hlen with hlen | hnil
        · simp only
          rw [ih m (data.drop adv) (by omega) (by omega)]
        · subst hnil
          simp [ScanLines, MaxScanTokenSize] at hsl

/-! ### Traces -/

theorem sent_append (xs ys : List Act) : sent (xs ++ ys) = sent xs ++ sent ys := by
  induction xs with
  | nil => rfl
  | cons a xs ih => cases a <;> simp [sent, ih]

theorem sent_sends (toks : List (List Byte)) : sent (toks.map Act.send) = toks := by
  induction toks with
  | nil => rfl
  | cons a xs ih => simp [sent, ih]

/-! ### One event -/

theorem writeScan_ok (w : World) (ft : FTailer) (f : File) (toks : List (List Byte))
    (hf : ft.file = some f) (hs : w.seekOk = true) (hr : w.readErr = none)
    (hscan : scanAll ((w.content f.ino).drop f.pos) false = (toks, none)) :
    writeScan w ft = ⟨toks.map Act.send ++ [Act.seekEnd],
      .ok { ft with file := some ⟨f.ino, (w.content f.ino).length⟩ }⟩ := by
  simp [writeScan, scanUnread, scanInput, hf, hr, hscan, Run.andThen, seekEnd, hs]

theorem handleEvent_write (w : World) (ft : FTailer) (ev : Event) (f : File)
    (toks : List (List Byte)) (hW : ev.Has Write = true) (hI : ev.identityLoss = false)
    (hf : ft.file = some f) (hs : w.seekOk = true) (hr : w.readErr = none)
    (hscan : scanAll ((w.content f.ino).drop f.pos) false = (toks, none)) :
    handleEvent w ft ev = ⟨toks.map Act.send ++ [Act.seekEnd],
      .ok { ft with file := some ⟨f.ino, (w.content f.ino).length⟩ }⟩ := by
  have hI2 : (ev.Has Remove || ev.Has Rename || ev.Has Chmod) = false := hI
  simp [handleEvent, hW, hI2, writeScan_ok w ft f toks hf hs hr hscan, Run.andThen]

/-! ### The loop -/

theorem tailLoop_write (w : World) (ft : FTailer) (ev : Event) (f : File)
    (toks : List (List Byte)) (rest : List (World × Recv))
    (hW : ev.Has Write = true) (hI : ev.identityLoss = false)
    (hf : ft.file = some f) (hs : w.seekOk = true) (hr : w.readErr = none)
    (hscan : scanAll ((w.content f.ino).drop f.pos) false = (toks, none)) :
    tailLoop ft ((w, .event ev) :: rest) =
      ⟨(toks.map Act.send ++ [Act.seekEnd]) ++
          (tailLoop { ft with file := some ⟨f.ino, (w.content f.ino).length⟩ } rest).trace,
        (tailLoop { ft with file := some ⟨f.ino, (w.content f.ino).length⟩ } rest).stop⟩ := by
  rw [tailLoop, handleEvent_write w ft ev f toks hW hI hf hs hr hscan]

theorem tailLoop_lineAppends (ino : Nat) :
    ∀ (steps : List (List (List Byte) × Event)) (w : World) (ft : FTailer),
      ft.file = some ⟨ino, (w.content ino).length⟩ → w.seekOk = true → w.readErr = none →
      (∀ s ∈ steps, (∀ l ∈ s.1, isLine l) ∧ s.2.Has Write = true ∧ s.2.identityLoss = false) →
      ∃ tr ft', tailLoop ft (lineAppends w ino steps) = ⟨tr, .waiting ft'⟩ ∧
        sent tr = (allLines steps).map dropCR := by
  intro steps
  induction steps with
  | nil =>
    intro w ft _ _ _ _
    exact ⟨[], ft, rfl, rfl⟩
  | cons s rest ih =>
    intro w ft hf hs hr hsteps
    obtain ⟨hlines, hW, hI⟩ := hsteps s (by simp)
    have hrest : ∀ x ∈ rest, (∀ l ∈ x.1, isLine l) ∧ x.2.Has Write = true ∧
        x.2.identityLoss = false := fun x hx => hsteps x (by simp [hx])
    have hscan : scanAll (((w.append ino (unlines s.1)).content ino).drop (w.content ino).length)
        false = (s.1.map dropCR, none) := by
      simp [World.append, scanAll_unlines s.1 false hlines, readerErr]
    obtain ⟨tr, ft', htl, hsent⟩ := ih (w.append ino (unlines s.1))
      { ft with file := some ⟨ino, ((w.append ino (unlines s.1)).content ino).length⟩ }
      rfl hs hr hrest
    refine ⟨(s.1.map dropCR).map Act.send ++ [Act.seekEnd] ++ tr, ft', ?_, ?_⟩
    · simp only [lineAppends, List.map_cons, appends] at htl ⊢
      rw [tailLoop_write (w.append ino (unlines s.1)) ft s.2 ⟨ino, (w.content ino).length⟩
        (s.1.map dropCR) _ hW hI hf hs hr hscan, htl]
    · rw [sent_append, sent_append, sent_sends, hsent]
      simp [allLines, sent]

theorem scanLoop_tooLong (fuel : Nat) (data : List Byte) (rf : Bool)
    (h : nl ∉ data.take MaxScanTokenSize) (hlen : MaxScanTokenSize ≤ data.length) :
    scanLoop (fuel + 1) data rf = ([], some ScanErr.tooLong) := by
  rw [scanLoop]
  simp [ScanLines, indexByte_none _ h, hlen]

theorem NewFTailer_ok (w : World) (name : String) (follow : Bool) (ino : Nat)
    (hn : w.newWatcherOk = true) (ha : w.addOk = true) (ho : w.openOk = true)
    (hs : w.seekOk = true) (hl : w.lookup name = some ino) :
    NewFTailer w name follow =
      ⟨[.newWatcher, .addWatch name, .openFile name, .seekEnd],
        .ok { Name := name, file := some ⟨ino, (w.content ino).length⟩, watcher := some ⟨ino⟩,
              follow := follow }⟩ := by
  simp [NewFTailer, initWatcher, initFile, seekEnd, Run.andThen, hn, ha, ho, hs, hl]

theorem handleEvent_tooLong (w : World) (ft : FTailer) (ev : Event) (f : File)
    (hW : ev.Has Write = true) (hf : ft.file = some f) (hr : w.readErr = none)
    (h : nl ∉ ((w.content f.ino).drop f.pos).take MaxScanTokenSize)
    (hlen : MaxScanTokenSize ≤ ((w.content f.ino).drop f.pos).length) :
    handleEvent w ft ev = ⟨[], .exit ErrFileRead⟩ := by
  have hscan : scanAll ((w.content f.ino).drop f.pos) false = ([], some ScanErr.tooLong) :=
    scanLoop_tooLong _ _ _ h hlen
  simp [handleEvent, hW, writeScan, scanUnread, scanInput, hf, hr, hscan, Run.andThen]

theorem tail_tooLong (content long : List Byte) (ev : Event) (follow : Bool)
    (hW : ev.Has Write = true) (hlong : nl ∉ long) (hlen : MaxScanTokenSize ≤ long.length) :
    Tail (tailerAt content.length follow) (lineAppends (quietWorld content) 0 [([long], ev)])
      = ⟨[], .exit ErrFileRead⟩ := by
  have hev : handleEvent ((quietWorld content).append 0 (unlines [long]))
      (tailerAt content.length follow) ev = ⟨[], .exit ErrFileRead⟩ := by
    apply handleEvent_tooLong _ _ ev ⟨0, content.length⟩ hW rfl rfl
    · simp only [World.append, quietWorld, if_true, List.drop_left, unlines]
      rw [List.take_append_eq_append_take]
      intro hmem
      rcases List.mem_append.mp hmem with h | h
      · exact hlong (List.mem_of_mem_take h)
      · have h0 : MaxScanTokenSize - long.length = 0 := by omega
        simp [h0] at h
    · simp only [World.append, quietWorld, if_true, List.drop_left, unlines, List.length_append,
        List.length_cons, List.length_nil]
      omega
  simp [Tail, lineAppends, appends, tailLoop, hev, deferred]

/-! ### What the helpers send and close -/

theorem sent_initWatcher (w : World) (ft : FTailer) : sent (initWatcher w ft).trace = [] := by
  cases hw : ft.watcher <;> cases hn : w.newWatcherOk <;> cases ha : w.addOk <;>
    cases hl : w.lookup ft.Name <;> simp [initWatcher, Run.andThen, sent, hw, hn, ha, hl]

theorem sent_initFile (w : World) (ft : FTailer) : sent (initFile w ft).trace = [] := by
  cases hw : ft.file <;> cases ho : w.openOk <;>
    cases hl : w.lookup ft.Name <;> simp [initFile, Run.andThen, sent, hw, ho, hl]

theorem sent_seekEnd (w : World) (ft : FTailer) : sent (seekEnd w ft).trace = [] := by
  cases hw : ft.file <;> cases ho : w.seekOk <;> simp [seekEnd, sent, hw, ho]

theorem sent_andThen_nil {α β : Type} (r : Run α) (k : α → Run β) (hr : sent r.trace = [])
    (hk : ∀ a, sent (k a).trace = []) : sent (r.andThen k).trace = [] := by
  unfold Run.andThen
  cases h : r.out with
  | ok a => simp [sent_append, hr, hk a]
  | exit c => simpa using hr

theorem sent_identityLost (w : World) (ft : FTailer) : sent (identityLost w ft).trace = [] := by
  unfold identityLost
  split
  · apply sent_andThen_nil _ _ (sent_initWatcher w ft)
    intro a
    apply sent_andThen_nil _ _ (sent_initFile w a)
    intro b
    apply sent_andThen_nil _ _ (sent_seekEnd w b)
    intro c
    rfl
  · rfl

theorem andThen_ok {α : Type} (r : Run α) : (r.andThen fun a => ⟨[], .ok a⟩) = r := by
  unfold Run.andThen
  cases r with
  | mk tr out => cases out <;> simp

theorem handleEvent_hasWrite (w : World) (ft : FTailer) (ev : Event) (hW : ev.Has Write = true) :
    handleEvent w ft ev =
      (writeScan w ft).andThen fun ft1 =>
        if ev.identityLoss then identityLost w ft1 else ⟨[], .ok ft1⟩ := by
  simp [handleEvent, hW, Event.identityLoss]

theorem sent_handleEvent_hasWrite (w : World) (ft : FTailer) (ev : Event)
    (hW : ev.Has Write = true) :
    sent (handleEvent w ft ev).trace = sent (writeScan w ft).trace := by
  rw [handleEvent_hasWrite w ft ev hW]
  unfold Run.andThen
  cases h : (writeScan w ft).out with
  | ok a =>
    cases hI : ev.identityLoss <;> simp [sent_append, sent_identityLost, sent]
  | exit c => simp

theorem mem_andThen {α β : Type} (a : Act) (r : Run α) (k : α → Run β)
    (h : a ∈ (r.andThen k).trace) : a ∈ r.trace ∨ ∃ x, a ∈ (k x).trace := by
  unfold Run.andThen at h
  cases hr : r.out with
  | ok x =>
    simp only [hr, List.mem_append] at h
    exact h.elim Or.inl fun h2 => Or.inr ⟨x, h2⟩
  | exit c =>
    simp only [hr] at h
    exact Or.inl h

theorem closeChan_initWatcher (w : World) (ft : FTailer) :
    Act.closeChan ∉ (initWatcher w ft).trace := by
  cases hw : ft.watcher <;> cases hn : w.newWatcherOk <;> cases ha : w.addOk <;>
    cases hl : w.lookup ft.Name <;> simp [initWatcher, Run.andThen, hw, hn, ha, hl]

theorem closeChan_initFile (w : World) (ft : FTailer) :
    Act.closeChan ∉ (initFile w ft).trace := by
  cases hw : ft.file <;> cases ho : w.openOk <;>
    cases hl : w.lookup ft.Name <;> simp [initFile, Run.andThen, hw, ho, hl]

theorem closeChan_seekEnd (w : World) (ft : FTailer) :
    Act.closeChan ∉ (seekEnd w ft).trace := by
  cases hw : ft.file <;> cases ho : w.seekOk <;> simp [seekEnd, hw, ho]

theorem closeChan_identityLost (w : World) (ft : FTailer) :
    Act.closeChan ∉ (identityLost w ft).trace := by
  unfold identityLost
  split
  · intro h
    rcases mem_andThen _ _ _ h with h | ⟨a, h⟩
    · exact closeChan_initWatcher w ft h
    rcases mem_andThen _ _ _ h with h | ⟨b, h⟩
    · exact closeChan_initFile w a h
    rcases mem_andThen _ _ _ h with h | ⟨c, h⟩
    · exact closeChan_seekEnd w b h
    · simp at h
  · simp

theorem closeChan_writeScan (w : World) (ft : FTailer) :
    Act.closeChan ∉ (writeScan w ft).trace := by
  unfold writeScan
  intro h
  rcases mem_andThen _ _ _ h with h | ⟨a, h⟩
  · simp at h
  · split at h
    · simp at h
    · rcases mem_andThen _ _ _ h with h | ⟨c, h⟩
      · exact closeChan_seekEnd w a h
      · simp at h

theorem closeChan_handleEvent (w : World) (ft : FTailer) (ev : Event) :
    Act.closeChan ∉ (handleEvent w ft ev).trace := by
  unfold handleEvent
  intro h
  rcases mem_andThen _ _ _ h with h | ⟨a, h⟩
  · split at h
    · exact closeChan_writeScan w ft h
    · simp at h
  · split at h
    · exact closeChan_identityLost w a h
    · simp at h

theorem closeChan_tailLoop (inputs : List (World × Recv)) :
    ∀ ft, Act.closeChan ∉ (tailLoop ft inputs).trace := by
  induction inputs with
  | nil => intro ft; simp [tailLoop]
  | cons x rest ih =>
    intro ft
    obtain ⟨w, r⟩ := x
    cases r with
    | event ev =>
      have hev := closeChan_handleEvent w ft ev
      rw [tailLoop]
      cases hh : handleEvent w ft ev with
      | mk tr out =>
        rw [hh] at hev
        cases out with
        | ok ft' =>
          simp only [List.mem_append, not_or]
          exact ⟨hev, ih ft'⟩
        | exit c => exact hev
    | eventsClosed => simp [tailLoop]
    | error => simp [tailLoop]
    | errorsClosed => simp [tailLoop]

theorem tailLoop_never_returns (inputs : List (World × Recv)) :
    ∀ ft, (tailLoop ft inputs).stop ≠ .returned := by
  induction inputs with
  | nil => intro ft; simp [tailLoop]
  | cons x rest ih =>
    intro ft
    obtain ⟨w, r⟩ := x
    cases r with
    | event ev =>
      rw [tailLoop]
      cases hh : handleEvent w ft ev with
      | mk tr out =>
        cases out with
        | ok ft1 => exact ih ft1
        | exit c => simp
    | eventsClosed => simp [tailLoop]
    | error => simp [tailLoop]
    | errorsClosed => simp [tailLoop]

/-! ### Re-acquisition and the read offset -/

theorem identityLost_ok (w : World) (ft : FTailer) (ino : Nat)
    (hfollow : ft.follow = true)
    (hn : w.newWatcherOk = true) (ha : w.addOk = true) (ho : w.openOk = true)
    (hs : w.seekOk = true) (hl : w.lookup ft.Name = some ino) :
    identityLost w ft =
      ⟨ft.watcher.toList.map Act.closeWatcher ++ [.newWatcher, .addWatch ft.Name] ++
          (ft.file.toList.map Act.closeFile ++ [.openFile ft.Name, .seekEnd]),
        .ok { ft with file := some ⟨ino, (w.content ino).length⟩, watcher := some ⟨ino⟩ }⟩ := by
  cases hw : ft.watcher <;> cases hfile : ft.file <;>
    simp [identityLost, initWatcher, initFile, seekEnd, Run.andThen, hfollow, hn, ha, ho, hs,
      hl, hw, hfile]

theorem writeScan_cases (w : World) (ft : FTailer) (hs : w.seekOk = true)
    (hscan : (scanUnread w ft).2 = none) :
    ∃ f, ft.file = some f ∧
      writeScan w ft = ⟨(scanUnread w ft).1.map Act.send ++ [Act.seekEnd],
        .ok { ft with file := some ⟨f.ino, (w.content f.ino).length⟩ }⟩ := by
  cases hfile : ft.file with
  | none =>
    simp [scanUnread, scanInput, hfile, scanAll, scanLoop, ScanLines, MaxScanTokenSize] at hscan
  | some f =>
    refine ⟨f, rfl, ?_⟩
    simp [writeScan, hscan, Run.andThen, seekEnd, hfile, hs]

theorem NewFTailer_state (w : World) (name : String) (follow : Bool) :
    match (NewFTailer w name follow).out with
    | .ok ft => ∃ ino, w.lookup name = some ino ∧
        ft = { Name := name, file := some ⟨ino, (w.content ino).length⟩,
               watcher := some ⟨ino⟩, follow := follow }
    | .exit _ => True := by
  cases hn : w.newWatcherOk <;> cases ha : w.addOk <;> cases ho : w.openOk <;>
    cases hs : w.seekOk <;> cases hl : w.lookup name <;>
    simp [NewFTailer, initWatcher, initFile, seekEnd, Run.andThen, hn, ha, ho, hs, hl]

theorem writeScan_pos (w : World) (ft ft' : FTailer) (tr : List Act) (f : File)
    (hf : ft.file = some f) (h : writeScan w ft = ⟨tr, .ok ft'⟩) :
    ft' = { ft with file := some ⟨f.ino, (w.content f.ino).length⟩ } := by
  cases hs : w.seekOk <;> cases he : (scanUnread w ft).2 <;>
    simp [writeScan, Run.andThen, seekEnd, hf, hs, he] at h
  exact h.2.symm

theorem identityLost_state (w : World) (ft ft' : FTailer)
    (h : (identityLost w ft).out = .ok ft') :
    ∃ ino, w.lookup ft.Name = some ino ∧
      ft' = { ft with file := some ⟨ino, (w.content ino).length⟩, watcher := some ⟨ino⟩ } := by
  cases hfo : ft.follow <;> cases hw : ft.watcher <;> cases hfile : ft.file <;>
    cases hn : w.newWatcherOk <;> cases ha : w.addOk <;> cases ho : w.openOk <;>
    cases hs : w.seekOk <;> cases hl : w.lookup ft.Name <;>
    simp [identityLost, initWatcher, initFile, seekEnd, Run.andThen, hfo, hw, hfile, hn, ha,
      ho, hs, hl] at h <;>
    exact ⟨_, rfl, h.symm⟩

theorem handleEvent_scanErr (w : World) (ft : FTailer) (ev : Event) (e : ScanErr)
    (hW : ev.Has Write = true) (he : (scanUnread w ft).2 = some e) :
    handleEvent w ft ev = ⟨(scanUnread w ft).1.map Act.send, .exit ErrFileRead⟩ := by
  simp [handleEvent, hW, writeScan, he, Run.andThen]

theorem tail_exit (w : World) (ft : FTailer) (ev : Event) (rest : List (World × Recv))
    (tr : List Act) (code : Nat) (h : handleEvent w ft ev = ⟨tr, .exit code⟩) :
    Tail ft ((w, .event ev) :: rest) = ⟨tr, .exit code⟩ := by
  simp [Tail, tailLoop, h, deferred]

theorem tail_longRun (content long : List Byte) (ev : Event) (follow : Bool)
    (rest : List (List Byte × Event))
    (hW : ev.Has Write = true) (hlong : nl ∉ long) (hlen : MaxScanTokenSize ≤ long.length) :
    Tail (tailerAt content.length follow) (appends (quietWorld content) 0 ((long, ev) :: rest))
      = ⟨[], .exit ErrFileRead⟩ := by
  rw [appends]
  apply tail_exit
  apply handleEvent_tooLong _ _ ev ⟨0, content.length⟩ hW rfl rfl
  · simp only [World.append, quietWorld, if_true, List.drop_left]
    exact fun hmem => hlong (List.mem_of_mem_take hmem)
  · simp only [World.append, quietWorld, if_true, List.drop_left]
    exact hlen

/-! ## The claims -/

/-- C1 (no duplication), as amended.  `NewFTailer` returns on a file with any content and then
chunks are appended, each made of complete lines that hold no terminator and are shorter than
`MaxScanTokenSize`, and each followed by one event that has the write bit and no remove,
rename or chmod bit.  Then `NewFTailer` has sent nothing, `Tail` waits for the next event, and
the strings it has sent are exactly the lines of the chunks, in file order, each once, each
without its terminal carriage return if it has one. -/
theorem no_duplication (w : World) (name : String) (follow : Bool) (ino : Nat)
    (steps : List (List (List Byte) × Event))
    (hn : w.newWatcherOk = true) (ha : w.addOk = true) (ho : w.openOk = true)
    (hs : w.seekOk = true) (hr : w.readErr = none) (hl : w.lookup name = some ino)
    (hsteps : ∀ s ∈ steps,
      (∀ l ∈ s.1, isLine l) ∧ s.2.Has Write = true ∧ s.2.identityLoss = false) :
    ∃ tr0 ft tr ft', NewFTailer w name follow = ⟨tr0, .ok ft⟩ ∧ sent tr0 = [] ∧
      Tail ft (lineAppends w ino steps) = ⟨tr, .waiting ft'⟩ ∧
      sent tr = (allLines steps).map dropCR := by
  obtain ⟨tr, ft', htl, hsent⟩ := tailLoop_lineAppends ino steps w
    { Name := name, file := some ⟨ino, (w.content ino).length⟩, watcher := some ⟨ino⟩,
      follow := follow } rfl hs hr hsteps
  refine ⟨_, _, tr, ft', NewFTailer_ok w name follow ino hn ha ho hs hl, rfl, ?_, hsent⟩
  simp [Tail, htl, deferred]

/-- The statement of C1 at two chunks, `hello` and then `a`, `b`, appended to a file that
holds `old`. -/
theorem no_duplication_witness :
    ∃ tr0 ft tr ft', NewFTailer (quietWorld (str "old\n")) "f" true = ⟨tr0, .ok ft⟩ ∧
      sent tr0 = [] ∧
      Tail ft (lineAppends (quietWorld (str "old\n")) 0
        [([str "hello"], ⟨"f", Write⟩), ([str "a", str "b"], ⟨"f", Write ||| Create⟩)])
        = ⟨tr, .waiting ft'⟩ ∧
      sent tr = (allLines [([str "hello"], (⟨"f", Write⟩ : Event)),
        ([str "a", str "b"], ⟨"f", Write ||| Create⟩)]).map dropCR :=
  no_duplication (quietWorld (str "old\n")) "f" true 0 _ rfl rfl rfl rfl rfl rfl (by decide)

/-- Two inputs at which C1 fails as it is written.  A chunk whose line ends in a carriage
return: the string sent is `a`, the line is `a\r`.  A chunk whose line has `MaxScanTokenSize`
bytes: nothing is sent and the process exits with `ErrFileRead`. -/
theorem no_duplication_counterexample :
    (NewFTailer (quietWorld (str "old\n")) "f" true).out
      = .ok (tailerAt (str "old\n").length true) ∧
    sent (Tail (tailerAt (str "old\n").length true) (lineAppends (quietWorld (str "old\n")) 0
      [([str "a\r"], ⟨"f", Write⟩)])).trace = [str "a"] ∧
    [str "a"] ≠ allLines [([str "a\r"], (⟨"f", Write⟩ : Event))] ∧
    Tail (tailerAt (str "old\n").length true) (lineAppends (quietWorld (str "old\n")) 0
      [([List.replicate MaxScanTokenSize 97], ⟨"f", Write⟩)]) = ⟨[], .exit ErrFileRead⟩ :=
  ⟨by decide, by decide, by decide,
    tail_tooLong _ _ _ _ (by decide) (by simp [List.mem_replicate, nl]) (by simp)⟩

/-- C2 (no premature emission), as amended.  When the unread content is a run of complete
lines followed by a non-empty rest without terminator (all of them shorter than
`MaxScanTokenSize`), the scan of an event with the write bit sends the complete lines and then
the unterminated rest as one more string, each without its terminal carriage return, and
leaves the read offset at the end of the file: the rest is consumed. -/
theorem no_premature_emission (w : World) (ft : FTailer) (ev : Event) (f : File)
    (ls : List (List Byte)) (t : List Byte)
    (hW : ev.Has Write = true) (hf : ft.file = some f)
    (hs : w.seekOk = true) (hr : w.readErr = none)
    (hu : (w.content f.ino).drop f.pos = unlines ls ++ t)
    (hls : ∀ l ∈ ls, isLine l) (ht : isLine t) (hne : t ≠ []) :
    writeScan w ft = ⟨(ls.map dropCR ++ [dropCR t]).map Act.send ++ [Act.seekEnd],
      .ok { ft with file := some ⟨f.ino, (w.content f.ino).length⟩ }⟩ ∧
    sent (handleEvent w ft ev).trace = ls.map dropCR ++ [dropCR t] := by
  have hscan : scanAll ((w.content f.ino).drop f.pos) false
      = (ls.map dropCR ++ [dropCR t], none) := by
    rw [hu, scanAll_lines ls t false hls ht]
    simp [lastToken, hne, readerErr]
  have hws := writeScan_ok w ft f _ hf hs hr hscan
  refine ⟨hws, ?_⟩
  rw [sent_handleEvent_hasWrite w ft ev hW, hws]
  simp only [sent_append, sent_sends]
  simp [sent]

/-- The statement of C2 at the unread content `ab\ncd`. -/
theorem no_premature_emission_witness :
    writeScan (quietWorld (str "ab\ncd")) (tailerAt 0 true)
      = ⟨([str "ab"].map dropCR ++ [dropCR (str "cd")]).map Act.send ++ [Act.seekEnd],
        .ok { tailerAt 0 true with file := some ⟨0, (str "ab\ncd").length⟩ }⟩ ∧
    sent (handleEvent (quietWorld (str "ab\ncd")) (tailerAt 0 true) ⟨"f", Write⟩).trace
      = [str "ab"].map dropCR ++ [dropCR (str "cd")] :=
  no_premature_emission (quietWorld (str "ab\ncd")) (tailerAt 0 true) ⟨"f", Write⟩ ⟨0, 0⟩
    [str "ab"] (str "cd") (by decide) rfl rfl rfl (by decide) (by decide) (by decide) (by decide)

/-- An input at which C2 fails as it is written: with `ab\ncd` unread, the scan sends `ab` and
`cd`, not `ab` alone, and the offset ends at 5, the end of the file, not at 3, where `cd`
starts. -/
theorem no_premature_emission_counterexample :
    sent (handleEvent (quietWorld (str "ab\ncd")) (tailerAt 0 true) ⟨"f", Write⟩).trace
      = [str "ab", str "cd"] ∧
    (handleEvent (quietWorld (str "ab\ncd")) (tailerAt 0 true) ⟨"f", Write⟩).out
      = .ok (tailerAt 5 true) ∧
    [str "ab", str "cd"] ≠ [str "ab"] ∧ tailerAt 5 true ≠ tailerAt 3 true := by
  decide

/-- C3 (a line written in two pieces), as amended.  From a Tailer with no unread content,
`u` (non-empty) is appended and an event with the write bit handled, then `v` and the
terminator are appended and a second such event handled; `u` and `v` hold no terminator and
are shorter than `MaxScanTokenSize`.  `Tail` sends `u` in the first scan and `v` in the
second, two strings in all, each without its terminal carriage return. -/
theorem split_line (w : World) (ft : FTailer) (ino : Nat) (u v : List Byte) (e1 e2 : Event)
    (hf : ft.file = some ⟨ino, (w.content ino).length⟩)
    (hs : w.seekOk = true) (hr : w.readErr = none)
    (hu : isLine u) (hune : u ≠ []) (hv : isLine v)
    (h1 : e1.Has Write = true ∧ e1.identityLoss = false)
    (h2 : e2.Has Write = true ∧ e2.identityLoss = false) :
    sent (Tail ft (appends w ino [(u, e1)])).trace = [dropCR u] ∧
    sent (Tail ft (appends w ino [(u, e1), (v ++ [nl], e2)])).trace = [dropCR u, dropCR v] := by
  have hscan1 : scanAll (((w.append ino u).content ino).drop (w.content ino).length) false
      = ([dropCR u], none) := by
    have h := scanAll_lines [] u false (by simp) hu
    simpa [World.append, unlines, lastToken, hune, readerErr] using h
  have hscan2 : scanAll ((((w.append ino u).append ino (v ++ [nl])).content ino).drop
      ((w.append ino u).content ino).length) false = ([dropCR v], none) := by
    have h := scanAll_unlines [v] false (by simpa using hv)
    simpa [World.append, unlines, readerErr] using h
  constructor
  · simp only [Tail, appends]
    rw [tailLoop_write (w.append ino u) ft e1 ⟨ino, (w.content ino).length⟩ [dropCR u] _
      h1.1 h1.2 hf hs hr hscan1]
    simp [tailLoop, deferred, sent]
  · simp only [Tail, appends]
    rw [tailLoop_write (w.append ino u) ft e1 ⟨ino, (w.content ino).length⟩ [dropCR u] _
      h1.1 h1.2 hf hs hr hscan1]
    rw [tailLoop_write ((w.append ino u).append ino (v ++ [nl])) _ e2
      ⟨ino, ((w.append ino u).content ino).length⟩ [dropCR v] _ h2.1 h2.2 rfl hs hr hscan2]
    simp [tailLoop, deferred, sent]

/-- The statement of C3 at `wor` and `ld`. -/
theorem split_line_witness :
    sent (Tail (tailerAt 6 true)
      (appends (quietWorld (str "hello\n")) 0 [(str "wor", ⟨"f", Write⟩)])).trace
        = [dropCR (str "wor")] ∧
    sent (Tail (tailerAt 6 true) (appends (quietWorld (str "hello\n")) 0
      [(str "wor", ⟨"f", Write⟩), (str "ld" ++ [nl], ⟨"f", Write⟩)])).trace
        = [dropCR (str "wor"), dropCR (str "ld")] :=
  split_line (quietWorld (str "hello\n")) (tailerAt 6 true) 0 (str "wor") (str "ld")
    ⟨"f", Write⟩ ⟨"f", Write⟩ (by decide) rfl rfl (by decide) (by decide) (by decide)
    (by decide) (by decide)

/-- The input of the spec at which C3 fails as it is written: after `wor` is appended the
output is `wor`, not empty, and after `ld\n` the output is `wor`, `ld`, not the one line
`world`. -/
theorem split_line_counterexample :
    sent (Tail (tailerAt 6 true)
      (appends (quietWorld (str "hello\n")) 0 [(str "wor", ⟨"f", Write⟩)])).trace
        = [str "wor"] ∧
    sent (Tail (tailerAt 6 true) (appends (quietWorld (str "hello\n")) 0
      [(str "wor", ⟨"f", Write⟩), (str "ld\n", ⟨"f", Write⟩)])).trace
        = [str "wor", str "ld"] ∧
    [str "wor", str "ld"] ≠ [str "wor" ++ str "ld"] := by
  decide

/-- C4 (construction on a non-existent path), as amended.  When no file exists at the path,
`NewFTailer` exits, for either value of `follow`: with `ErrWatcherAdd` when the watcher can be
created, since adding the path fails before the file is opened, and with `ErrWatcherInit`
when it cannot.  The code is never `ErrFileOpen`, and `os.Open` is not called. -/
theorem construction_without_file (w : World) (name : String) (follow : Bool)
    (h : w.lookup name = none) :
    NewFTailer w name follow =
      (if w.newWatcherOk then ⟨[.newWatcher, .addWatch name], .exit ErrWatcherAdd⟩
       else ⟨[.newWatcher], .exit ErrWatcherInit⟩) ∧
    (NewFTailer w name follow).out ≠ .exit ErrFileOpen ∧
    Act.openFile name ∉ (NewFTailer w name follow).trace := by
  cases hn : w.newWatcherOk <;> cases ha : w.addOk <;>
    simp [NewFTailer, initWatcher, Run.andThen, hn, ha, h, ErrWatcherInit, ErrWatcherAdd,
      ErrFileOpen]

/-- The statement of C4 in the world without files. -/
theorem construction_without_file_witness :
    NewFTailer emptyWorld "nofile" false =
      (if emptyWorld.newWatcherOk then ⟨[.newWatcher, .addWatch "nofile"], .exit ErrWatcherAdd⟩
       else ⟨[.newWatcher], .exit ErrWatcherInit⟩) ∧
    (NewFTailer emptyWorld "nofile" false).out ≠ .exit ErrFileOpen ∧
    Act.openFile "nofile" ∉ (NewFTailer emptyWorld "nofile" false).trace :=
  construction_without_file emptyWorld "nofile" false rfl

/-- An input at which C4 fails as it is written: no file exists at the path, and `NewFTailer`
exits with code 2, `ErrWatcherAdd`, which is not `ErrFileOpen`, for both values of `follow`. -/
theorem construction_without_file_counterexample :
    emptyWorld.lookup "nofile" = none ∧
    (NewFTailer emptyWorld "nofile" true).out = .exit 2 ∧
    (NewFTailer emptyWorld "nofile" false).out = .exit 2 ∧
    (2 : Nat) ≠ ErrFileOpen := by
  decide

/-- C5 (one exit code per error kind) does not hold of the code: the seven constants are
distinct and none is 0, but a failure of `os.Open`, at construction as well as at
re-acquisition, ends in `ErrWatcherInit`, the exit code of a failure of
`fsnotify.NewWatcher`, and not in `ErrFileOpen`. -/
theorem exit_codes_collide :
    (NewFTailer { quietWorld [] with newWatcherOk := false } "f" true).out
      = .exit ErrWatcherInit ∧
    (NewFTailer { quietWorld [] with openOk := false } "f" true).out = .exit ErrWatcherInit ∧
    (identityLost { quietWorld [] with openOk := false } (tailerAt 0 true)).out
      = .exit ErrWatcherInit ∧
    ErrWatcherInit ≠ ErrFileOpen ∧
    [ErrWatcherInit, ErrWatcherAdd, ErrWatcherClosed, ErrWatcherErr, ErrFileOpen, ErrFileRead,
      ErrFileSeek] = [1, 2, 4, 8, 16, 32, 64] := by
  decide

/-- C6 (the output channel is closed on every exit) does not hold of the code: `Tail` never
returns, it stops through `os.Exit` only, and `close(c)` is not called in any run of it. -/
theorem output_channel_not_closed (ft : FTailer) (inputs : List (World × Recv)) :
    (Tail ft inputs).stop ≠ .returned ∧ Act.closeChan ∉ (Tail ft inputs).trace := by
  have hstop : (tailLoop ft inputs).stop ≠ .returned := tailLoop_never_returns inputs ft
  refine ⟨hstop, ?_⟩
  have hdef : deferred (tailLoop ft inputs).stop = [] := by
    cases h : (tailLoop ft inputs).stop with
    | exit c => rfl
    | returned => exact absurd h hstop
    | waiting ft1 => rfl
  simp only [Tail, hdef, List.append_nil]
  exact closeChan_tailLoop inputs ft

/-- The statement about C6 at each way `Tail` stops: a remove event without `follow`, a closed
events channel, a closed errors channel, a reported error, a read failure. -/
theorem output_channel_not_closed_witness :
    ((Tail (tailerAt 0 false) [(quietWorld [], .event ⟨"f", Remove⟩)]).stop = .exit 0 ∧
      Act.closeChan ∉ (Tail (tailerAt 0 false) [(quietWorld [], .event ⟨"f", Remove⟩)]).trace) ∧
    ((Tail (tailerAt 0 true) [(quietWorld [], .eventsClosed)]).stop = .exit ErrWatcherClosed ∧
      Act.closeChan ∉ (Tail (tailerAt 0 true) [(quietWorld [], .eventsClosed)]).trace) ∧
    ((Tail (tailerAt 0 true) [(quietWorld [], .errorsClosed)]).stop = .exit ErrWatcherClosed ∧
      Act.closeChan ∉ (Tail (tailerAt 0 true) [(quietWorld [], .errorsClosed)]).trace) ∧
    ((Tail (tailerAt 0 true) [(quietWorld [], .error)]).stop = .exit ErrWatcherErr ∧
      Act.closeChan ∉ (Tail (tailerAt 0 true) [(quietWorld [], .error)]).trace) ∧
    ((Tail (tailerAt 0 true)
        [({ quietWorld (str "a\n") with readErr := some 1 }, .event ⟨"f", Write⟩)]).stop
        = .exit ErrFileRead ∧
      Act.closeChan ∉ (Tail (tailerAt 0 true)
        [({ quietWorld (str "a\n") with readErr := some 1 }, .event ⟨"f", Write⟩)]).trace) :=
  ⟨⟨by decide, (output_channel_not_closed _ _).2⟩,
   ⟨by decide, (output_channel_not_closed _ _).2⟩,
   ⟨by decide, (output_channel_not_closed _ _).2⟩,
   ⟨by decide, (output_channel_not_closed _ _).2⟩,
   ⟨by decide, (output_channel_not_closed _ _).2⟩⟩

/-- C7 (write before identity loss), as amended.  An event has the write bit and a remove,
rename or chmod bit, no read or seek fails, and the unread content of the open handle is a
run of complete lines and a rest without terminator, all shorter than `MaxScanTokenSize`.
Then `Tail` first does what it does for a write-only event: it sends every line and then the
rest, if there is one, each without its terminal carriage return, and seeks to the end of the
file.  Only after that comes the handling of the identity loss: without `follow` the exit
with code 0; with `follow` the re-acquisition, which closes the watcher, creates one and adds
the path, closes the handle, opens the path and seeks to the end, and which leaves the Tailer
on the file now at the path when these calls succeed.  Whatever the re-acquisition ends in,
the strings sent for the event are those of the write-only event. -/
theorem write_before_identity_loss (w : World) (ft : FTailer) (ev : Event) (f : File)
    (ls : List (List Byte)) (t : List Byte)
    (hW : ev.Has Write = true) (hI : ev.identityLoss = true)
    (hf : ft.file = some f) (hs : w.seekOk = true) (hr : w.readErr = none)
    (hu : (w.content f.ino).drop f.pos = unlines ls ++ t)
    (hls : ∀ l ∈ ls, isLine l) (ht : isLine t) :
    handleEvent w ft ⟨ev.Name, Write⟩ =
      ⟨(ls.map dropCR ++ lastToken t).map Act.send ++ [Act.seekEnd],
        .ok { ft with file := some ⟨f.ino, (w.content f.ino).length⟩ }⟩ ∧
    (ft.follow = false →
      handleEvent w ft ev =
        ⟨(ls.map dropCR ++ lastToken t).map Act.send ++ [Act.seekEnd], .exit 0⟩) ∧
    (ft.follow = true → ∀ ino, w.newWatcherOk = true → w.addOk = true → w.openOk = true →
      w.lookup ft.Name = some ino →
      handleEvent w ft ev =
        ⟨((ls.map dropCR ++ lastToken t).map Act.send ++ [Act.seekEnd]) ++
          (ft.watcher.toList.map Act.closeWatcher ++ [.newWatcher, .addWatch ft.Name] ++
            [.closeFile ⟨f.ino, (w.content f.ino).length⟩, .openFile ft.Name, .seekEnd]),
          .ok { ft with file := some ⟨ino, (w.content ino).length⟩,
                        watcher := some ⟨ino⟩ }⟩) ∧
    sent (handleEvent w ft ev).trace = ls.map dropCR ++ lastToken t ∧
    sent (handleEvent w ft ev).trace = sent (handleEvent w ft ⟨ev.Name, Write⟩).trace := by
  have hscan : scanAll ((w.content f.ino).drop f.pos) false
      = (ls.map dropCR ++ lastToken t, none) := by
    rw [hu, scanAll_lines ls t false hls ht]
    simp [readerErr]
  have hws := writeScan_ok w ft f _ hf hs hr hscan
  have hwo : handleEvent w ft ⟨ev.Name, Write⟩ = writeScan w ft := by
    have h1 : (⟨ev.Name, Write⟩ : Event).Has Write = true := by
      show (Write &&& Write == Write) = true
      decide
    have h2 : (⟨ev.Name, Write⟩ : Event).identityLoss = false := by
      show ((Write &&& Remove == Remove) || (Write &&& Rename == Rename)
        || (Write &&& Chmod == Chmod)) = false
      decide
    rw [handleEvent_hasWrite _ _ _ h1]
    simp only [h2]
    exact andThen_ok _
  have hboth : handleEvent w ft ev = (writeScan w ft).andThen (identityLost w) := by
    rw [handleEvent_hasWrite _ _ _ hW]
    simp [hI]
  have hsent : sent (handleEvent w ft ev).trace = ls.map dropCR ++ lastToken t := by
    rw [sent_handleEvent_hasWrite w ft ev hW, hws, sent_append, sent_sends]
    simp [sent]
  have hsentw : sent (handleEvent w ft ⟨ev.Name, Write⟩).trace
      = ls.map dropCR ++ lastToken t := by
    rw [hwo, hws, sent_append, sent_sends]
    simp [sent]
  refine ⟨by rw [hwo, hws], ?_, ?_, hsent, by rw [hsent, hsentw]⟩
  · intro hfo
    rw [hboth, hws]
    simp [Run.andThen, identityLost, hfo]
  · intro hfo ino hn ha ho hl
    rw [hboth, hws]
    simp only [Run.andThen]
    rw [identityLost_ok w { ft with file := some ⟨f.ino, (w.content f.ino).length⟩ } ino
      hfo hn ha ho hs hl]
    simp

/-- The statement of C7 at an event with the write and the rename bit after a rotation, with
`unread` left in the old file: with `follow` and without. -/
theorem write_before_identity_loss_witness :
    handleEvent (rotatedWorld (str "fresh\n")) (tailerAt 4 true) ⟨"f", Write ||| Rename⟩
      = ⟨[.send (str "unread"), .seekEnd, .closeWatcher ⟨0⟩, .newWatcher, .addWatch "f",
          .closeFile ⟨0, 10⟩, .openFile "f", .seekEnd],
         .ok { Name := "f", file := some ⟨1, 6⟩, watcher := some ⟨1⟩, follow := true }⟩ ∧
    handleEvent (rotatedWorld (str "fresh\n")) (tailerAt 4 false) ⟨"f", Write ||| Rename⟩
      = ⟨[.send (str "unread"), .seekEnd], .exit 0⟩ ∧
    handleEvent (rotatedWorld (str "fresh\n")) (tailerAt 4 true) ⟨"f", Write⟩
      = ⟨[.send (str "unread"), .seekEnd], .ok (tailerAt 10 true)⟩ :=
  ⟨(write_before_identity_loss (rotatedWorld (str "fresh\n")) (tailerAt 4 true)
      ⟨"f", Write ||| Rename⟩ ⟨0, 4⟩ [] (str "unread") (by decide) (by decide) rfl rfl rfl
      (by decide) (by decide) (by decide)).2.2.1 rfl 1 rfl rfl rfl rfl,
   (write_before_identity_loss (rotatedWorld (str "fresh\n")) (tailerAt 4 false)
      ⟨"f", Write ||| Rename⟩ ⟨0, 4⟩ [] (str "unread") (by decide) (by decide) rfl rfl rfl
      (by decide) (by decide) (by decide)).2.1 rfl,
   (write_before_identity_loss (rotatedWorld (str "fresh\n")) (tailerAt 4 true)
      ⟨"f", Write ||| Rename⟩ ⟨0, 4⟩ [] (str "unread") (by decide) (by decide) rfl rfl rfl
      (by decide) (by decide) (by decide)).1⟩

/-- Two inputs at which C7 fails as it is written.  A pending line of `MaxScanTokenSize` bytes
and an event with the write and the remove bit: the line is not sent, and `Tail` exits with
`ErrFileRead`, with `follow` before any re-acquisition and without `follow` instead of with
code 0.  A read that fails after one byte: `a` is sent, `b` is not, and the exit is
`ErrFileRead` again. -/
theorem write_before_identity_loss_counterexample :
    (⟨"f", Write ||| Remove⟩ : Event).Has Write = true ∧
    (⟨"f", Write ||| Remove⟩ : Event).identityLoss = true ∧
    Tail (tailerAt (str "old\n").length true) (lineAppends (quietWorld (str "old\n")) 0
      [([List.replicate MaxScanTokenSize 97], ⟨"f", Write ||| Remove⟩)])
        = ⟨[], .exit ErrFileRead⟩ ∧
    Tail (tailerAt (str "old\n").length false) (lineAppends (quietWorld (str "old\n")) 0
      [([List.replicate MaxScanTokenSize 97], ⟨"f", Write ||| Remove⟩)])
        = ⟨[], .exit ErrFileRead⟩ ∧
    Tail (tailerAt 0 false)
      [({ quietWorld (str "a\nb\n") with readErr := some 1 }, .event ⟨"f", Write ||| Remove⟩)]
        = ⟨[.send (str "a")], .exit ErrFileRead⟩ ∧
    ErrFileRead ≠ 0 :=
  ⟨by decide, by decide,
    tail_tooLong _ _ _ _ (by decide) (by simp [List.mem_replicate, nl]) (by simp),
    tail_tooLong _ _ _ _ (by decide) (by simp [List.mem_replicate, nl]) (by simp),
    by decide, by decide⟩

/-- C8 (non-follow termination).  Without `follow`, an event with a remove, rename or chmod
bit and no write bit makes `Tail` exit with code 0, whatever would have been received after
it; the trace is empty: nothing is sent, the path is not opened and not watched again. -/
theorem non_follow_termination (w : World) (ft : FTailer) (ev : Event)
    (rest : List (World × Recv))
    (hfollow : ft.follow = false) (hI : ev.identityLoss = true) (hW : ev.Has Write = false) :
    Tail ft ((w, .event ev) :: rest) = ⟨[], .exit 0⟩ := by
  have hI2 : (ev.Has Remove || ev.Has Rename || ev.Has Chmod) = true := hI
  have hev : handleEvent w ft ev = ⟨[], .exit 0⟩ := by
    simp [handleEvent, hW, hI2, Run.andThen, identityLost, hfollow]
  simp [Tail, tailLoop, hev, deferred]

/-- The statement of C8 at a remove event that is followed by a write event. -/
theorem non_follow_termination_witness :
    Tail (tailerAt 0 false) [(quietWorld (str "late\n"), .event ⟨"f", Remove⟩),
      (quietWorld (str "late\nmore\n"), .event ⟨"f", Write⟩)] = ⟨[], .exit 0⟩ :=
  non_follow_termination _ _ _ _ rfl (by decide) (by decide)

/-- C9 (rotation continuity), as amended.  With `follow`, an event has a remove, rename or
chmod bit; if it has the write bit too, its scan ends without error; the path can be watched
and opened again and the seeks succeed.  Then `Tail` does exactly the actions of
`rotationTrace`: it closes the watcher and the handle it holds and continues with a watcher
and a handle on the file now at the path, the read offset at the end of that file as it is
then; what was unread in the old file is sent before that if the event has the write bit and
is not sent otherwise.  When `X` and the terminator are then appended to the new file and an
event with the write bit (and no read or seek failure) is handled, `Tail` sends `X`, seeks
to the end and waits: `X` is the one string sent after the re-acquisition. -/
theorem rotation_continuity (w w2 : World) (ft : FTailer) (ev ev2 : Event) (ino : Nat)
    (hfollow : ft.follow = true) (hI : ev.identityLoss = true)
    (hn : w.newWatcherOk = true) (ha : w.addOk = true) (ho : w.openOk = true)
    (hs : w.seekOk = true) (hl : w.lookup ft.Name = some ino)
    (hscan : ev.Has Write = true → (scanUnread w ft).2 = none)
    (hc2 : w2.content ino = w.content ino ++ (str "X" ++ [nl]))
    (hs2 : w2.seekOk = true) (hr2 : w2.readErr = none)
    (hW2 : ev2.Has Write = true) (hI2 : ev2.identityLoss = false) :
    handleEvent w ft ev =
      ⟨rotationTrace w ft ev,
        .ok { ft with file := some ⟨ino, (w.content ino).length⟩, watcher := some ⟨ino⟩ }⟩ ∧
    sent (rotationTrace w ft ev) = (if ev.Has Write then (scanUnread w ft).1 else []) ∧
    Tail ft [(w, .event ev), (w2, .event ev2)] =
      ⟨rotationTrace w ft ev ++ [Act.send (str "X"), Act.seekEnd],
        .waiting { ft with file := some ⟨ino, (w2.content ino).length⟩,
                           watcher := some ⟨ino⟩ }⟩ := by
  have hXline : ∀ l ∈ [str "X"], isLine l := by decide
  have hscan2 : scanAll ((w2.content ino).drop (w.content ino).length) false
      = ([str "X"], none) := by
    have h := scanAll_unlines [str "X"] false hXline
    rw [hc2, List.drop_left]
    have hd : dropCR (str "X") = str "X" := by decide
    simpa [unlines, readerErr, hd] using h
  have hI' : (ev.Has Remove || ev.Has Rename || ev.Has Chmod) = true := hI
  have hfirst : handleEvent w ft ev =
      ⟨rotationTrace w ft ev,
        .ok { ft with file := some ⟨ino, (w.content ino).length⟩, watcher := some ⟨ino⟩ }⟩ ∧
      sent (rotationTrace w ft ev) = (if ev.Has Write then (scanUnread w ft).1 else []) := by
    cases hW : ev.Has Write with
    | false =>
      have hev : handleEvent w ft ev = identityLost w ft := by
        simp [handleEvent, hW, hI', Run.andThen]
      have hquiet : sent (handleEvent w ft ev).trace = [] := by
        rw [hev]
        exact sent_identityLost w ft
      rw [identityLost_ok w ft ino hfollow hn ha ho hs hl] at hev
      have htr : rotationTrace w ft ev = ft.watcher.toList.map Act.closeWatcher ++
          [.newWatcher, .addWatch ft.Name] ++
          (ft.file.toList.map Act.closeFile ++ [.openFile ft.Name, .seekEnd]) := by
        cases hfile : ft.file <;> simp [rotationTrace, hW, hfile]
      rw [hev] at hquiet
      rw [htr]
      exact ⟨hev, by simpa using hquiet⟩
    | true =>
      obtain ⟨f, hf, hws⟩ := writeScan_cases w ft hs (hscan hW)
      have hev : handleEvent w ft ev = (writeScan w ft).andThen (identityLost w) := by
        simp [handleEvent, hW, hI']
      have hsent : sent (handleEvent w ft ev).trace = (scanUnread w ft).1 := by
        rw [sent_handleEvent_hasWrite w ft ev hW, hws, sent_append, sent_sends]
        simp [sent]
      rw [hws] at hev
      simp only [Run.andThen] at hev
      rw [identityLost_ok w { ft with file := some ⟨f.ino, (w.content f.ino).length⟩ } ino
        hfollow hn ha ho hs hl] at hev
      have htr : rotationTrace w ft ev = (scanUnread w ft).1.map Act.send ++ [Act.seekEnd] ++
          (ft.watcher.toList.map Act.closeWatcher ++ [.newWatcher, .addWatch ft.Name] ++
          ([Act.closeFile ⟨f.ino, (w.content f.ino).length⟩] ++
            [.openFile ft.Name, .seekEnd])) := by
        simp [rotationTrace, hW, hf]
      rw [hev] at hsent
      rw [htr]
      exact ⟨by simpa using hev, by simpa using hsent⟩
  obtain ⟨hev, hsent⟩ := hfirst
  refine ⟨hev, hsent, ?_⟩
  simp only [Tail]
  rw [tailLoop, hev]
  simp only
  rw [tailLoop_write w2 _ ev2 ⟨ino, (w.content ino).length⟩ [str "X"] [] hW2 hI2 rfl hs2 hr2
    hscan2]
  simp [tailLoop, deferred]

/-- The statement of C9 after a rotation, with `unread` left in the old file and `fresh` in
the new one: at a rename event, where `unread` is never sent, and at an event with the write
and the rename bit, where it is sent before the re-acquisition. -/
theorem rotation_continuity_witness :
    Tail (tailerAt 4 true) [(rotatedWorld (str "fresh\n"), .event ⟨"f", Rename⟩),
        (rotatedWorld (str "fresh\nX\n"), .event ⟨"f", Write⟩)]
      = ⟨[.closeWatcher ⟨0⟩, .newWatcher, .addWatch "f", .closeFile ⟨0, 4⟩, .openFile "f",
          .seekEnd, .send (str "X"), .seekEnd],
         .waiting { Name := "f", file := some ⟨1, 8⟩, watcher := some ⟨1⟩, follow := true }⟩ ∧
    Tail (tailerAt 4 true) [(rotatedWorld (str "fresh\n"), .event ⟨"f", Write ||| Rename⟩),
        (rotatedWorld (str "fresh\nX\n"), .event ⟨"f", Write⟩)]
      = ⟨[.send (str "unread"), .seekEnd, .closeWatcher ⟨0⟩, .newWatcher, .addWatch "f",
          .closeFile ⟨0, 10⟩, .openFile "f", .seekEnd, .send (str "X"), .seekEnd],
         .waiting { Name := "f", file := some ⟨1, 8⟩, watcher := some ⟨1⟩, follow := true }⟩ :=
  ⟨(rotation_continuity (rotatedWorld (str "fresh\n")) (rotatedWorld (str "fresh\nX\n"))
      (tailerAt 4 true) ⟨"f", Rename⟩ ⟨"f", Write⟩ 1 rfl (by decide) rfl rfl rfl rfl rfl
      (by decide) (by decide) rfl rfl (by decide) (by decide)).2.2,
   (rotation_continuity (rotatedWorld (str "fresh\n")) (rotatedWorld (str "fresh\nX\n"))
      (tailerAt 4 true) ⟨"f", Write ||| Rename⟩ ⟨"f", Write⟩ 1 rfl (by decide) rfl rfl rfl
      rfl rfl (by decide) (by decide) rfl rfl (by decide) (by decide)).2.2⟩

/-- An input at which C9 fails as it is written: with `follow`, the path watchable and
openable and no call failing, `MaxScanTokenSize` bytes without terminator are unread when an
event with the write and the rename bit arrives.  `Tail` exits with `ErrFileRead` before any
re-acquisition, and `X`, appended afterwards, is not sent. -/
theorem rotation_continuity_counterexample :
    (tailerAt (str "old\n").length true).follow = true ∧
    (⟨"f", Write ||| Rename⟩ : Event).identityLoss = true ∧
    (quietWorld (str "old\n")).lookup "f" = some 0 ∧
    (quietWorld (str "old\n")).newWatcherOk = true ∧ (quietWorld (str "old\n")).addOk = true ∧
    (quietWorld (str "old\n")).openOk = true ∧ (quietWorld (str "old\n")).seekOk = true ∧
    (quietWorld (str "old\n")).readErr = none ∧
    Tail (tailerAt (str "old\n").length true)
      (appends (quietWorld (str "old\n")) 0
        [(List.replicate MaxScanTokenSize 97, ⟨"f", Write ||| Rename⟩),
         (str "X" ++ [nl], ⟨"f", Write⟩)])
      = ⟨[], .exit ErrFileRead⟩ :=
  ⟨rfl, by decide, rfl, rfl, rfl, rfl, rfl, rfl,
    tail_longRun _ _ _ _ _ (by decide) (by simp [List.mem_replicate, nl]) (by simp)⟩

/-- C10 (read offset invariant), as amended.  `Tail` has handled an event and waits for the
next.  An event with neither the write bit nor a remove, rename or chmod bit leaves the
Tailer, handle and offset, as it was.  An event with the write bit and none of the others
leaves the handle on the same file and the offset equal to the length of that file at that
moment, wherever it was before.  An event with a remove, rename or chmod bit leaves a handle
on the file now at the path, the offset equal to the length of that file.  So, if the offset
was at or before the end of the file when the event was handled, it is at or before the end
afterwards and, without re-acquisition, has not decreased; and if the file had been cut
below the offset, an event with the write bit moves the offset back to the new end of the
file.  A scan that ends without error leaves the offset at the length of the file, and
`NewFTailer`, when it returns, leaves it at the length of the file at the path. -/
theorem read_offset_invariant (w : World) (ft ft' : FTailer) (ev : Event) (tr : List Act)
    (f : File) (h : handleEvent w ft ev = ⟨tr, .ok ft'⟩) (hf : ft.file = some f) :
    (ev.Has Write = false → ev.identityLoss = false → ft' = ft) ∧
    (ev.Has Write = true → ev.identityLoss = false →
      ft' = { ft with file := some ⟨f.ino, (w.content f.ino).length⟩ }) ∧
    (ev.identityLoss = true → ∃ ino, w.lookup ft.Name = some ino ∧
      ft' = { ft with file := some ⟨ino, (w.content ino).length⟩, watcher := some ⟨ino⟩ }) ∧
    (f.pos ≤ (w.content f.ino).length →
      ∃ f', ft'.file = some f' ∧ f'.pos ≤ (w.content f'.ino).length ∧
        (ev.identityLoss = false → f'.ino = f.ino ∧ f.pos ≤ f'.pos)) ∧
    ((w.content f.ino).length < f.pos → ev.Has Write = true → ev.identityLoss = false →
      ∃ f', ft'.file = some f' ∧ f'.ino = f.ino ∧ f'.pos = (w.content f.ino).length ∧
        f'.pos < f.pos) ∧
    (∀ tr1 ft1, writeScan w ft = ⟨tr1, .ok ft1⟩ →
      ft1 = { ft with file := some ⟨f.ino, (w.content f.ino).length⟩ }) ∧
    (∀ w0 name follow,
      match (NewFTailer w0 name follow).out with
      | .ok ft0 => ∃ ino, w0.lookup name = some ino ∧
          ft0 = { Name := name, file := some ⟨ino, (w0.content ino).length⟩,
                  watcher := some ⟨ino⟩, follow := follow }
      | .exit _ => True) := by
  -- the three kinds of event
  have hnone : ev.Has Write = false → ev.identityLoss = false → ft' = ft := by
    intro hW hI
    have hI' : (ev.Has Remove || ev.Has Rename || ev.Has Chmod) = false := hI
    simp [handleEvent, hW, hI', Run.andThen] at h
    exact h.2.symm
  have hwrite : ev.Has Write = true → ev.identityLoss = false →
      ft' = { ft with file := some ⟨f.ino, (w.content f.ino).length⟩ } := by
    intro hW hI
    rw [handleEvent_hasWrite w ft ev hW] at h
    cases hws : writeScan w ft with
    | mk tr1 out1 =>
      cases out1 with
      | exit c => simp [hws, Run.andThen] at h
      | ok ft1 =>
        have hft1 := writeScan_pos w ft ft1 tr1 f hf hws
        simp [hws, Run.andThen, hI] at h
        rw [← h.2, hft1]
  have hlost : ev.identityLoss = true → ∃ ino, w.lookup ft.Name = some ino ∧
      ft' = { ft with file := some ⟨ino, (w.content ino).length⟩, watcher := some ⟨ino⟩ } := by
    intro hI
    have hI' : (ev.Has Remove || ev.Has Rename || ev.Has Chmod) = true := hI
    cases hW : ev.Has Write with
    | false =>
      simp [handleEvent, hW, hI', Run.andThen] at h
      exact identityLost_state w ft ft' h.2
    | true =>
      rw [handleEvent_hasWrite w ft ev hW] at h
      cases hws : writeScan w ft with
      | mk tr1 out1 =>
        cases out1 with
        | exit c => simp [hws, Run.andThen] at h
        | ok ft1 =>
          have hft1 := writeScan_pos w ft ft1 tr1 f hf hws
          simp only [hws, Run.andThen, hI, if_true] at h
          obtain ⟨ino, hl, hst⟩ := identityLost_state w ft1 ft' (congrArg Run.out h)
          rw [hft1] at hl hst
          exact ⟨ino, hl, hst⟩
  refine ⟨hnone, hwrite, hlost, ?_, ?_, ?_, NewFTailer_state⟩
  · intro hle
    cases hI : ev.identityLoss with
    | true =>
      obtain ⟨ino, _, hst⟩ := hlost hI
      rw [hst]
      exact ⟨_, rfl, Nat.le_refl _, fun h0 => by simp at h0⟩
    | false =>
      cases hW : ev.Has Write with
      | false =>
        rw [hnone hW hI]
        exact ⟨f, hf, hle, fun _ => ⟨rfl, Nat.le_refl _⟩⟩
      | true =>
        rw [hwrite hW hI]
        exact ⟨_, rfl, Nat.le_refl _, fun _ => ⟨rfl, hle⟩⟩
  · intro hlt hW hI
    rw [hwrite hW hI]
    exact ⟨_, rfl, rfl, rfl, hlt⟩
  · intro tr1 ft1 hws
    exact writeScan_pos w ft ft1 tr1 f hf hws

/-- The statement of C10 at a write event that finds the offset at 7 and the file cut to 3
bytes. -/
theorem read_offset_invariant_witness :
    handleEvent (quietWorld (str "abc")) (tailerAt 7 true) ⟨"f", Write⟩
      = ⟨[.seekEnd], .ok (tailerAt 3 true)⟩ ∧
    ((⟨"f", Write⟩ : Event).Has Write = false → (⟨"f", Write⟩ : Event).identityLoss = false →
      tailerAt 3 true = tailerAt 7 true) ∧
    ((⟨"f", Write⟩ : Event).Has Write = true → (⟨"f", Write⟩ : Event).identityLoss = false →
      tailerAt 3 true = { tailerAt 7 true with
        file := some ⟨(⟨0, 7⟩ : File).ino,
          ((quietWorld (str "abc")).content (⟨0, 7⟩ : File).ino).length⟩ }) ∧
    ((⟨"f", Write⟩ : Event).identityLoss = true →
      ∃ ino, (quietWorld (str "abc")).lookup (tailerAt 7 true).Name = some ino ∧
        tailerAt 3 true = { tailerAt 7 true with
          file := some ⟨ino, ((quietWorld (str "abc")).content ino).length⟩,
          watcher := some ⟨ino⟩ }) ∧
    ((⟨0, 7⟩ : File).pos ≤ ((quietWorld (str "abc")).content (⟨0, 7⟩ : File).ino).length →
      ∃ f', (tailerAt 3 true).file = some f' ∧
        f'.pos ≤ ((quietWorld (str "abc")).content f'.ino).length ∧
        ((⟨"f", Write⟩ : Event).identityLoss = false →
          f'.ino = (⟨0, 7⟩ : File).ino ∧ (⟨0, 7⟩ : File).pos ≤ f'.pos)) ∧
    (((quietWorld (str "abc")).content (⟨0, 7⟩ : File).ino).length < (⟨0, 7⟩ : File).pos →
      (⟨"f", Write⟩ : Event).Has Write = true → (⟨"f", Write⟩ : Event).identityLoss = false →
      ∃ f', (tailerAt 3 true).file = some f' ∧ f'.ino = (⟨0, 7⟩ : File).ino ∧
        f'.pos = ((quietWorld (str "abc")).content (⟨0, 7⟩ : File).ino).length ∧
        f'.pos < (⟨0, 7⟩ : File).pos) ∧
    (∀ tr1 ft1, writeScan (quietWorld (str "abc")) (tailerAt 7 true) = ⟨tr1, .ok ft1⟩ →
      ft1 = { tailerAt 7 true with
        file := some ⟨(⟨0, 7⟩ : File).ino,
          ((quietWorld (str "abc")).content (⟨0, 7⟩ : File).ino).length⟩ }) ∧
    (∀ w0 name follow,
      match (NewFTailer w0 name follow).out with
      | .ok ft0 => ∃ ino, w0.lookup name = some ino ∧
          ft0 = { Name := name, file := some ⟨ino, (w0.content ino).length⟩,
                  watcher := some ⟨ino⟩, follow := follow }
      | .exit _ => True) :=
  ⟨by decide,
    read_offset_invariant (quietWorld (str "abc")) (tailerAt 7 true) (tailerAt 3 true)
      ⟨"f", Write⟩ [Act.seekEnd] ⟨0, 7⟩ (by decide) rfl⟩

/-- An input at which C10 fails as it is written: the offset is 5 when the file is cut to 2
bytes, and the scan of the next write event, without any re-acquisition, moves it back
to 2. -/
theorem read_offset_invariant_counterexample :
    (NewFTailer (quietWorld (str "abcd\n")) "f" true).out = .ok (tailerAt 5 true) ∧
    Tail (tailerAt 5 true) [(quietWorld (str "ab"), .event ⟨"f", Write⟩)]
      = ⟨[Act.seekEnd], .waiting (tailerAt 2 true)⟩ ∧
    (⟨"f", Write⟩ : Event).identityLoss = false ∧ 2 < 5 := by
  decide

end FTail
